import Mathlib

/-!
Formal model of the `rift` money-muling detection engine.

Shallow embedding of the Python sources:
  * `src/app/agents/ibm_quantum_agent.py` — QAOA max-cut partition engine
    (`_get_graph_edges`, `_compute_maxcut_value`, `_classical_greedy_maxcut`,
    `IBMQuantumAgent._process_counts`, `IBMQuantumAgent.run`,
    `IBMQuantumAgent._fallback_result`);
  * `src/app/utils/csv_parser.py` — `parse_csv`;
  * `src/app/main.py` — the `analyze_csv` and `whatif_simulate` endpoint
    state transitions.

Python floats are modelled as exact rationals (`ℚ`); Python's `round`
(banker's rounding, round-half-to-even) is modelled exactly on `ℚ`.
Fallible external calls (IBM backend, Aer simulator, CSV parse) are
modelled as `Option`/`Except` values.
-/

namespace Rift

/-! ## Python `round` (half-to-even), on exact rationals -/

/-- Round a rational to the nearest integer, ties to the even integer:
the exact-arithmetic semantics of Python 3 `round(x)`. -/
def roundHalfEven (x : ℚ) : ℤ :=
  if x - (⌊x⌋ : ℚ) < 1/2 then ⌊x⌋
  else if 1/2 < x - (⌊x⌋ : ℚ) then ⌊x⌋ + 1
  else if ⌊x⌋ % 2 = 0 then ⌊x⌋ else ⌊x⌋ + 1

/-- Python `round(x, 2)` on exact rationals. -/
def pyRound2 (x : ℚ) : ℚ := ((roundHalfEven (x * 100) : ℤ) : ℚ) / 100

/-! ## Cost-graph construction: `_get_graph_edges`

The directed transaction graph is modelled as its edge list (a
`List (String × String)` of (sender, receiver) pairs in insertion order);
a ring's member list maps account ids to qubit indices. -/

/-- `idx = {acc: i for i, acc in enumerate(members)}` followed by a key
lookup: a Python dict comprehension keeps the LAST index for a duplicated
account id, which the left fold with overwrite reproduces. -/
def idxLookup (members : List String) (a : String) : Option Nat :=
  ((List.range members.length).zip members).foldl
    (fun acc p => if p.2 = a then some p.1 else acc) none

/-- The first loop of `_get_graph_edges`: keep the graph edges with both
endpoints in the ring, mapped to qubit indices. -/
def mapEdges (members : List String) (g : List (String × String)) :
    List (Nat × Nat) :=
  g.filterMap (fun e =>
    match idxLookup members e.1, idxLookup members e.2 with
    | some i, some j => some (i, j)
    | _, _ => none)

/-- `for u, v in list(edges): if (v, u) not in edges: edges.append((v, u))` —
the iteration runs over a snapshot of the list while the membership test
sees the growing list, which the fold accumulator reproduces. -/
def addReverses (edges : List (Nat × Nat)) : List (Nat × Nat) :=
  edges.foldl
    (fun acc e => if (e.2, e.1) ∈ acc then acc else acc ++ [(e.2, e.1)])
    edges

/-- `(min(e), max(e))` — the dedup key of `_get_graph_edges`. -/
def edgeKey (e : Nat × Nat) : Nat × Nat := (min e.1 e.2, max e.1 e.2)

/-- The `seen`-set dedup loop of `_get_graph_edges`: first occurrence of
each unordered key survives, in order. -/
def dedupByKey (l : List (Nat × Nat)) : List (Nat × Nat) :=
  (l.foldl
    (fun st e =>
      if edgeKey e ∈ st.1 then st else (edgeKey e :: st.1, st.2 ++ [e]))
    (([] : List (Nat × Nat)), ([] : List (Nat × Nat)))).2

/-- `_get_graph_edges(members, G)`. -/
def getGraphEdges (members : List String) (g : List (String × String)) :
    List (Nat × Nat) :=
  dedupByKey (addReverses (mapEdges members g))

/-! ## Cut value and the classical greedy baseline -/

/-- `_compute_maxcut_value(bitstring, edges)`: number of edges whose
endpoints get different colors.  Out-of-range indices (which would raise
`IndexError` in Python) are modelled by a default character; every use in
this file indexes within bounds. -/
def computeMaxcutValue (bs : List Char) (edges : List (Nat × Nat)) : Nat :=
  edges.countP (fun e => bs.getD e.1 'X' != bs.getD e.2 'X')

/-- One iteration of the `_classical_greedy_maxcut` loop body for node `i`,
reading and updating the running partition list, exactly as the Python
mutates `partition` in place. -/
def greedyStep (edges : List (Nat × Nat)) (p : List Nat) (i : Nat) : List Nat :=
  let cuts0 := edges.countP (fun e =>
    (e.1 == i && p.getD e.2 0 == 0) || (e.2 == i && p.getD e.1 0 == 0))
  let cuts1 := edges.countP (fun e =>
    (e.1 == i && p.getD e.2 0 == 1) || (e.2 == i && p.getD e.1 0 == 1))
  p.set i (if cuts1 > cuts0 then 1 else 0)

/-- `_classical_greedy_maxcut(n, edges)`: the partition list starts as
`[0] * n`, each node is assigned in index order, and the result is the
joined bitstring together with its cut value. -/
def classicalGreedyMaxcut (n : Nat) (edges : List (Nat × Nat)) :
    List Char × Nat :=
  let part := (List.range n).foldl (greedyStep edges) (List.replicate n 0)
  let bs := part.map (fun b => if b == 1 then '1' else '0')
  (bs, computeMaxcutValue bs edges)

/-! ## `_process_counts`: turning measurement counts into the result dict

Measurement counts are modelled as an association list
`List (List Char × Nat)` in the dict's insertion order (bitstring keys as
character lists).  The Python `sorted(..., key=count, reverse=True)` is a
stable descending sort, reproduced by an insertion sort that places each
element after all already-placed elements of count ≥ its own. -/

/-- Insert one entry into a descending-by-count list, after every entry of
count ≥ its own (preserving Python `sorted` stability). -/
def insertDescByCount (x : List Char × Nat) :
    List (List Char × Nat) → List (List Char × Nat)
  | [] => [x]
  | y :: ys => if y.2 ≥ x.2 then y :: insertDescByCount x ys else x :: y :: ys

/-- Stable descending sort by count (`sorted(counts.items(), key=lambda x:
x[1], reverse=True)`). -/
def sortDescByCount (l : List (List Char × Nat)) : List (List Char × Nat) :=
  l.foldl (fun acc x => insertDescByCount x acc) []

/-- Zero padding helper for `pyZfill`: insert `k` zeros, after a leading
sign character if there is one. -/
def pyZfillPad (s : List Char) (k : Nat) : List Char :=
  match s with
  | [] => List.replicate k '0'
  | c :: rest =>
    if c = '+' ∨ c = '-' then c :: (List.replicate k '0' ++ rest)
    else List.replicate k '0' ++ (c :: rest)

/-- Python `str.zfill(n)`: left-pad with zeros to length `n`, keeping a
leading sign character in front of the padding. -/
def pyZfill (s : List Char) (n : Nat) : List Char :=
  if n ≤ s.length then s else pyZfillPad s (n - s.length)

/-- Python `s[-n:]`: the last `n` characters, except that `s[-0:]` is the
whole string. -/
def pyLastN (s : List Char) (n : Nat) : List Char :=
  if n = 0 then s else s.drop (s.length - n)

/-- `bs.replace(' ', '').zfill(n)[-n:]` — the bitstring cleanup applied to
every raw measurement key in `_process_counts`. -/
def pyClean (s : List Char) (n : Nat) : List Char :=
  pyLastN (pyZfill (s.filter (fun c => c != ' ')) n) n

/-- The best-partition loop of `_process_counts`: fold over the top
samples, keeping the cleaned bitstring with the highest cut value
(`best_bs = None`, `best_cut = -1`, update on strict improvement). -/
def bestScan (n : Nat) (edges : List (Nat × Nat))
    (l : List (List Char × Nat)) : Option (List Char) × ℤ :=
  l.foldl
    (fun acc p =>
      let c := pyClean p.1 n
      let cut := computeMaxcutValue c edges
      if (cut : ℤ) > acc.2 then (some c, (cut : ℤ)) else acc)
    (none, -1)

/-- `[members[i] for i in range(n) if best_bs[i] == c]` with
`n = len(members)`; the default character is never hit because the cleaned
bitstring has length `n` whenever `n ≥ 1`. -/
def pickGroup (members : List String) (bs : List Char) (c : Char) :
    List String :=
  ((List.range members.length).filter (fun i => bs.getD i 'X' == c)).filterMap
    members.get?

/-- Dominant-group per-account score:
`round(min(risk_score * 0.9 + dominant_prob * 10, 100), 2)`. -/
def dominantScore (riskScore dominantProb : ℚ) : ℚ :=
  pyRound2 (min (riskScore * 0.9 + dominantProb * 10) 100)

/-- Minority-group per-account score: `round(min(risk_score * 0.6, 100), 2)`. -/
def minorityScore (riskScore : ℚ) : ℚ :=
  pyRound2 (min (riskScore * 0.6) 100)

/-- The fields of the `_process_counts` result dict that this development
reasons about.  `top_measurements` and the `noise_entropy` field (a
`log2`-based real) are not referenced by any claim and are omitted. -/
structure ProcessedResult where
  best_bitstring : List Char
  cut_value : ℤ
  max_possible_cut : Nat
  group_0 : List String
  group_1 : List String
  classical_bitstring : List Char
  classical_cut : Nat
  quantum_advantage_pct : ℚ
  dominant_group : List String
  minority_group : List String
  dominant_prob : ℚ
  quantum_scores : List (String × ℚ)
  suspicious_set : List String
  deriving Repr, DecidableEq

/-- `IBMQuantumAgent._process_counts(counts, members, ...)`.  Returns
`none` exactly when the sample list is empty, in which case the Python
code would fault on `best_bs = None` (inside its caller's `try` block). -/
def processCounts (counts : List (List Char × Nat)) (members : List String)
    (riskScore : ℚ) (edges : List (Nat × Nat)) : Option ProcessedResult :=
  let n := members.length
  let total : Nat := (counts.map (fun p => p.2)).sum
  let sortedCounts := sortDescByCount counts
  match bestScan n edges (sortedCounts.take 20) with
  | (none, _) => none
  | (some bestBs, bestCut) =>
    let group0 := pickGroup members bestBs '0'
    let group1 := pickGroup members bestBs '1'
    let classical := classicalGreedyMaxcut n edges
    let maxPossibleCut := edges.length
    let quantumAdvantage :=
      pyRound2 (((bestCut : ℚ) - (classical.2 : ℚ)) / (max maxPossibleCut 1 : ℚ) * 100)
    let dominantGroup := if group1.length ≥ group0.length then group1 else group0
    let minorityGroup := if group1.length ≥ group0.length then group0 else group1
    let dominantProb : ℚ :=
      (((sortedCounts.take 10).filter (fun p => pyClean p.1 n == bestBs)).map
        (fun p => (p.2 : ℚ) / (total : ℚ))).sum
    let scores :=
      dominantGroup.map (fun a => (a, dominantScore riskScore dominantProb)) ++
      minorityGroup.map (fun a => (a, minorityScore riskScore))
    some
      { best_bitstring := bestBs
        cut_value := bestCut
        max_possible_cut := maxPossibleCut
        group_0 := group0
        group_1 := group1
        classical_bitstring := classical.1
        classical_cut := classical.2
        quantum_advantage_pct := quantumAdvantage
        dominant_group := dominantGroup
        minority_group := minorityGroup
        dominant_prob := dominantProb
        quantum_scores := scores
        suspicious_set := dominantGroup }

/-! ## `IBMQuantumAgent.run`: the backend fallback chain

The external world (IBM connection, backend job, Aer simulator) is
modelled as an environment of outcomes: `none` stands for any failure
that the Python code catches (connection error, no backend, job raised,
simulation raised). -/

/-- The `_fallback_result` dict: every listed member scores `50.0`,
advantage `0`. -/
structure FallbackResult where
  ring_id : String
  reason : String
  quantum_scores : List (String × ℚ)
  suspicious_set : List String
  quantum_advantage_pct : ℚ
  deriving Repr, DecidableEq

/-- `IBMQuantumAgent._fallback_result(ring_id, members, reason)`. -/
def fallbackResult (ringId : String) (members : List String)
    (reason : String) : FallbackResult :=
  { ring_id := ringId
    reason := reason
    quantum_scores := members.map (fun a => (a, (50 : ℚ)))
    suspicious_set := members
    quantum_advantage_pct := 0 }

/-- The result dict of `IBMQuantumAgent.run`: either the processed-counts
dict or the fallback dict. -/
inductive AgentResult
  | processed (r : ProcessedResult)
  | fallback (f : FallbackResult)
  deriving Repr, DecidableEq

/-- The `quantum_scores` entry of either result shape. -/
def AgentResult.scoresOf : AgentResult → List (String × ℚ)
  | .processed r => r.quantum_scores
  | .fallback f => f.quantum_scores

/-- The `quantum_advantage_pct` entry of either result shape. -/
def AgentResult.advantageOf : AgentResult → ℚ
  | .processed r => r.quantum_advantage_pct
  | .fallback f => f.quantum_advantage_pct

/-- Outcomes of the external calls made by `run`:
`ibmConnected` models `_connect()`; `ibmCounts = none` models a failed
backend selection or a raised/failed IBM job; `qiskitAvailable` models the
`QISKIT_AVAILABLE` import flag; `aerCounts = none` models a raised Aer
simulation. -/
structure QuantumEnv where
  ibmConnected : Bool
  ibmCounts : Option (List (List Char × Nat))
  qiskitAvailable : Bool
  aerCounts : Option (List (List Char × Nat))

/-- The ring dict fields read by `run` (`member_accounts`, `ring_id`,
`risk_score`). -/
structure RingInfo where
  member_accounts : List String
  ring_id : String
  risk_score : ℚ

def MAX_QUBITS_REAL : Nat := 5
def MAX_QUBITS_SIM : Nat := 8

/-- `IBMQuantumAgent._run_on_ibm`: `None` when there are no induced edges,
no backend, the job fails, or the in-`try` processing faults. -/
def runOnIbm (g : List (String × String)) (members : List String)
    (risk : ℚ) (env : QuantumEnv) : Option AgentResult :=
  let edges := getGraphEdges members g
  if edges.isEmpty then none
  else
    match env.ibmCounts with
    | none => none
    | some counts => (processCounts counts members risk edges).map .processed

/-- `IBMQuantumAgent._run_on_aer`: fallback dict when there are no induced
edges or the simulation (or in-`try` processing) raises. -/
def runOnAer (g : List (String × String)) (members : List String)
    (ringId : String) (risk : ℚ) (env : QuantumEnv) : AgentResult :=
  let edges := getGraphEdges members g
  if edges.isEmpty then .fallback (fallbackResult ringId members "no_edges")
  else
    match env.aerCounts with
    | none => .fallback (fallbackResult ringId members "aer_error")
    | some counts =>
      match processCounts counts members risk edges with
      | some r => .processed r
      | none => .fallback (fallbackResult ringId members "aer_error")

/-- `IBMQuantumAgent.run`: insufficient-members check, then IBM attempt,
then Aer fallback, then the deterministic fallback dict. -/
def agentRun (g : List (String × String)) (ring : RingInfo)
    (env : QuantumEnv) : AgentResult :=
  let members := ring.member_accounts
  if members.length < 2 then
    .fallback (fallbackResult ring.ring_id members "insufficient_members")
  else
    let ibmAttempt : Option AgentResult :=
      if env.ibmConnected then
        runOnIbm g (members.take MAX_QUBITS_REAL) ring.risk_score env
      else none
    match ibmAttempt with
    | some r => r
    | none =>
      if env.qiskitAvailable then
        runOnAer g (members.take MAX_QUBITS_SIM) ring.ring_id ring.risk_score env
      else .fallback (fallbackResult ring.ring_id members "qiskit_unavailable")

/-! ## `parse_csv` (`src/app/utils/csv_parser.py`)

A parsed CSV row is modelled after the coercion step
(`pd.to_numeric(..., errors="coerce")` / `pd.to_datetime(...,
errors="coerce")`): `none` in `amount` stands for a missing or non-numeric
amount (NaN), `none` in `timestamp` for a missing or unparseable timestamp
(NaT), `none` in `sender_id`/`receiver_id` for a missing id.  Timestamps
are epoch seconds (`ℤ`), amounts exact rationals. -/

structure CsvRow where
  transaction_id : String
  sender_id : Option String
  receiver_id : Option String
  amount : Option ℚ
  timestamp : Option ℤ
  deriving Repr, DecidableEq

structure CsvTable where
  columns : List String
  rows : List CsvRow
  deriving Repr

def REQUIRED_COLUMNS : List String :=
  ["transaction_id", "sender_id", "receiver_id", "amount", "timestamp"]

/-- Python `str.strip()`: drop leading and trailing whitespace. -/
def pyStrip (s : List Char) : List Char :=
  ((s.dropWhile Char.isWhitespace).reverse.dropWhile Char.isWhitespace).reverse

/-- `col.strip().lower().replace(" ", "_")`, computed on the character
list (the replaced pattern is the single space character). -/
def normalizeColumn (c : String) : String :=
  String.mk (((pyStrip c.data).map Char.toLower).map
    (fun ch => if ch = ' ' then '_' else ch))

/-- The `df.dropna(subset=["sender_id", "receiver_id", "amount",
"timestamp"])` retention predicate. -/
def validRow (r : CsvRow) : Bool :=
  r.sender_id.isSome && r.receiver_id.isSome &&
  r.amount.isSome && r.timestamp.isSome

/-- First-occurrence deduplication (used for the account set and the
distinct (sender, receiver) pairs; Python builds these with `set` /
`groupby`, whose iteration order no modelled field depends on). -/
def firstOccur {α : Type} [DecidableEq α] (l : List α) : List α :=
  l.foldl (fun acc x => if x ∈ acc then acc else acc ++ [x]) []

def rowSender (r : CsvRow) : String := r.sender_id.getD ""
def rowReceiver (r : CsvRow) : String := r.receiver_id.getD ""

/-- One aggregated edge of the transaction graph: the group of retained
rows sharing a (sender, receiver) pair. -/
structure EdgeData where
  total_amount : ℚ
  tx_count : Nat
  transactions : List (String × ℚ × ℤ)
  deriving Repr, DecidableEq

def edgeDataFor (df : List CsvRow) (p : String × String) : EdgeData :=
  let grp := df.filter (fun r => rowSender r == p.1 && rowReceiver r == p.2)
  { total_amount := (grp.map (fun r => r.amount.getD 0)).sum
    tx_count := grp.length
    transactions :=
      grp.map (fun r => (r.transaction_id, r.amount.getD 0, r.timestamp.getD 0)) }

/-- Ascending insertion sort on integers (models the stable
`sort_values` on each account's timestamp column; equal timestamps are
indistinguishable values here). -/
def insertSorted (x : ℤ) : List ℤ → List ℤ
  | [] => [x]
  | y :: ys => if x ≤ y then x :: y :: ys else y :: insertSorted x ys

def sortInts (l : List ℤ) : List ℤ := l.foldr insertSorted []

/-- Consecutive differences (`timestamp - prev` within an account group). -/
def consecutiveDiffs : List ℤ → List ℤ
  | a :: b :: rest => (b - a) :: consecutiveDiffs (b :: rest)
  | _ => []

/-- Per-node statistics attached to every graph node.  `none` in the time
gaps models `float("inf")` (no consecutive pair for the account). -/
structure NodeStats where
  total_sent : ℚ
  total_received : ℚ
  tx_count_sent : Nat
  tx_count_recv : Nat
  tx_count_total : Nat
  in_degree : Nat
  out_degree : Nat
  avg_time_gap : Option ℚ
  min_time_gap : Option ℤ
  deriving Repr, DecidableEq

def nodeStatsFor (df : List CsvRow) (pairs : List (String × String))
    (a : String) : NodeStats :=
  let sent := df.filter (fun r => rowSender r == a)
  let recv := df.filter (fun r => rowReceiver r == a)
  let ts := sortInts (sent.map (fun r => r.timestamp.getD 0) ++
                      recv.map (fun r => r.timestamp.getD 0))
  let gaps := consecutiveDiffs ts
  { total_sent := (sent.map (fun r => r.amount.getD 0)).sum
    total_received := (recv.map (fun r => r.amount.getD 0)).sum
    tx_count_sent := sent.length
    tx_count_recv := recv.length
    tx_count_total := sent.length + recv.length
    in_degree := (pairs.filter (fun p => p.2 == a)).length
    out_degree := (pairs.filter (fun p => p.1 == a)).length
    avg_time_gap :=
      if gaps.isEmpty then none
      else some ((gaps.map (fun d => (d : ℚ))).sum / (gaps.length : ℚ))
    min_time_gap := gaps.min? }

/-- The metadata record returned by `parse_csv`.  `none` in the date range
models `NaT` (the min/max of an empty timestamp column). -/
structure CsvMetadata where
  total_transactions : Nat
  total_accounts : Nat
  total_edges : Nat
  date_start : Option ℤ
  date_end : Option ℤ
  deriving Repr, DecidableEq

structure ParseOutput where
  df : List CsvRow
  nodes : List String
  edges : List ((String × String) × EdgeData)
  nodeStats : List (String × NodeStats)
  metadata : CsvMetadata
  deriving Repr, DecidableEq

inductive ParseError
  | missingColumns (missing : List String)
  deriving Repr, DecidableEq

/-- `parse_csv`: normalise columns, raise `ValueError` when a required
column is missing, coerce and drop invalid rows, build the graph, node
statistics and metadata. -/
def parseCsv (t : CsvTable) : Except ParseError ParseOutput :=
  let missing :=
    REQUIRED_COLUMNS.filter (fun c => !((t.columns.map normalizeColumn).contains c))
  if !missing.isEmpty then .error (.missingColumns missing)
  else
    let df := t.rows.filter validRow
    let accounts :=
      firstOccur (df.map rowSender ++ df.map rowReceiver)
    let pairs := firstOccur (df.map (fun r => (rowSender r, rowReceiver r)))
    .ok
      { df := df
        nodes := accounts
        edges := pairs.map (fun p => (p, edgeDataFor df p))
        nodeStats := accounts.map (fun a => (a, nodeStatsFor df pairs a))
        metadata :=
          { total_transactions := df.length
            total_accounts := accounts.length
            total_edges := pairs.length
            date_start := (df.map (fun r => r.timestamp.getD 0)).min?
            date_end := (df.map (fun r => r.timestamp.getD 0)).max? } }

/-! ## Process-wide state of `src/app/main.py`

The module globals `latest_results`, `latest_graph`, `latest_df` are
modelled as optional content tags (`none` = still the initial
`{}`/`None`; `some k` = content of run `k`, where tag `0` stands for an
empty object, which Python treats as falsy just like `None`). -/

structure ServerState where
  latest_results : Option Nat
  latest_graph : Option Nat
  latest_df : Option Nat
  deriving Repr, DecidableEq

/-- Python truthiness of a stored global: `None`, `{}` and an empty graph
are falsy. -/
def pyFalsy (o : Option Nat) : Bool :=
  match o with
  | none => true
  | some k => k == 0

/-- State transition of a single `/api/analyze` request.
`parsed = none` models `parse_csv` (or reading/decoding the upload)
raising; otherwise `parsed = some (g, d)` carries the new graph and
DataFrame tags, which the handler stores immediately ("Store for What-If
simulator").  `pipelineResult = none` models any later step (agents,
aggregator, disruption, visualisation) raising on the parsed input;
`some r` is the final output stored only at the end ("Store for
download").  The `Bool` result is `true` iff the request succeeded (no
`HTTPException`). -/
def analyzeStep (s : ServerState) (parsed : Option (Nat × Nat))
    (pipelineResult : Option Nat) : ServerState × Bool :=
  match parsed with
  | none => (s, false)
  | some gd =>
    let s1 := { s with latest_graph := some gd.1, latest_df := some gd.2 }
    match pipelineResult with
    | none => (s1, false)
    | some r => ({ s1 with latest_results := some r }, true)

/-- Outcome of a `/api/whatif` request: an `HTTPException(status, ...)`
or an invocation of `WhatIfSimulator.simulate(nodes)` against the stored
graph/results. -/
inductive WhatIfOutcome
  | httpError (status : Nat) (detail : String)
  | simulate (nodes : List String)
  deriving Repr, DecidableEq

/-- The `/api/whatif` handler: reject when no (truthy) stored analysis,
reject an empty or absent node list with HTTP 400 before constructing the
simulator, otherwise invoke the simulator; the handler never writes the
globals, so the state is returned unchanged on every path. -/
def whatifStep (s : ServerState) (bodyNodes : Option (List String)) :
    WhatIfOutcome × ServerState :=
  if pyFalsy s.latest_graph || pyFalsy s.latest_results then
    (.httpError 400 "No analysis results. Upload a CSV first.", s)
  else
    let nodes := bodyNodes.getD []
    if nodes.isEmpty then
      (.httpError 400 "No nodes specified. Provide nodes array.", s)
    else (.simulate nodes, s)

/-- The claim-side reading of §4.3 step 5: "among the top-K most frequent
samples (K=20), the coloring with the highest cut value" — the highest cut
value among the cleaned top-20 samples.  Stated independently of the
best-partition fold inside `processCounts`, to be compared with it. -/
def specBestCut20 (counts : List (List Char × Nat)) (n : Nat)
    (edges : List (Nat × Nat)) : Nat :=
  (((sortDescByCount counts).take 20).map
    (fun p => computeMaxcutValue (pyClean p.1 n) edges)).foldl Nat.max 0

/-! # Lemmas -/

/-! ## Rounding -/

theorem floor_le_roundHalfEven (x : ℚ) : ⌊x⌋ ≤ roundHalfEven x := by
  unfold roundHalfEven
  split_ifs <;> omega

theorem roundHalfEven_le_floor_add_one (x : ℚ) : roundHalfEven x ≤ ⌊x⌋ + 1 := by
  unfold roundHalfEven
  split_ifs <;> omega

theorem roundHalfEven_mono {x y : ℚ} (h : x ≤ y) :
    roundHalfEven x ≤ roundHalfEven y := by
  rcases lt_or_eq_of_le (Int.floor_mono h) with hlt | heq
  · calc roundHalfEven x ≤ ⌊x⌋ + 1 := roundHalfEven_le_floor_add_one x
      _ ≤ ⌊y⌋ := by omega
      _ ≤ roundHalfEven y := floor_le_roundHalfEven y
  · have hr : x - (⌊x⌋ : ℚ) ≤ y - (⌊y⌋ : ℚ) := by
      rw [← heq]; linarith
    unfold roundHalfEven
    rw [← heq]
    split_ifs <;> first | omega | linarith

theorem pyRound2_mono {x y : ℚ} (h : x ≤ y) : pyRound2 x ≤ pyRound2 y := by
  unfold pyRound2
  have : roundHalfEven (x * 100) ≤ roundHalfEven (y * 100) :=
    roundHalfEven_mono (by linarith)
  have hc : ((roundHalfEven (x * 100) : ℤ) : ℚ) ≤ ((roundHalfEven (y * 100) : ℤ) : ℚ) := by
    exact_mod_cast this
  linarith

/-! ## The stable descending sort -/

theorem mem_insertDescByCount {x y : List Char × Nat}
    {l : List (List Char × Nat)} :
    x ∈ insertDescByCount y l ↔ x = y ∨ x ∈ l := by
  induction l with
  | nil => simp [insertDescByCount]
  | cons z zs ih =>
    simp only [insertDescByCount]
    split_ifs
    · simp only [List.mem_cons, ih]
      tauto
    · simp only [List.mem_cons]

theorem mem_of_foldl_insertDescByCount {x : List Char × Nat} :
    ∀ (l acc : List (List Char × Nat)),
      x ∈ l.foldl (fun acc y => insertDescByCount y acc) acc →
      x ∈ acc ∨ x ∈ l := by
  intro l
  induction l with
  | nil => intro acc h; exact Or.inl h
  | cons z zs ih =>
    intro acc h
    rcases ih (insertDescByCount z acc) h with h1 | h1
    · rcases mem_insertDescByCount.mp h1 with h2 | h2
      · exact Or.inr (by simp [h2])
      · exact Or.inl h2
    · exact Or.inr (List.mem_cons_of_mem z h1)

theorem mem_of_mem_sortDescByCount {x : List Char × Nat}
    {l : List (List Char × Nat)} (h : x ∈ sortDescByCount l) : x ∈ l := by
  rcases mem_of_foldl_insertDescByCount l [] h with h1 | h1
  · simp at h1
  · exact h1

theorem length_insertDescByCount (x : List Char × Nat)
    (l : List (List Char × Nat)) :
    (insertDescByCount x l).length = l.length + 1 := by
  induction l with
  | nil => rfl
  | cons z zs ih =>
    simp only [insertDescByCount]
    split_ifs <;> simp [ih]

theorem length_foldl_insertDescByCount :
    ∀ (l acc : List (List Char × Nat)),
      (l.foldl (fun acc y => insertDescByCount y acc) acc).length =
        acc.length + l.length := by
  intro l
  induction l with
  | nil => intro acc; simp
  | cons z zs ih =>
    intro acc
    simp only [List.foldl_cons]
    rw [ih, length_insertDescByCount]
    simp only [List.length_cons]
    omega

theorem length_sortDescByCount (l : List (List Char × Nat)) :
    (sortDescByCount l).length = l.length := by
  simpa using length_foldl_insertDescByCount l []

/-! ## The best-partition fold -/

theorem bestScan_foldl_snd (n : Nat) (edges : List (Nat × Nat)) :
    ∀ (l : List (List Char × Nat)) (acc : Option (List Char) × ℤ),
      (l.foldl (fun acc p =>
          let c := pyClean p.1 n
          let cut := computeMaxcutValue c edges
          if (cut : ℤ) > acc.2 then (some c, (cut : ℤ)) else acc) acc).2 =
        l.foldl
          (fun a p => max a ((computeMaxcutValue (pyClean p.1 n) edges : ℕ) : ℤ))
          acc.2 := by
  intro l
  induction l with
  | nil => intro acc; rfl
  | cons p ps ih =>
    intro acc
    simp only [List.foldl_cons]
    rw [ih]
    congr 1
    dsimp only
    split_ifs with h
    · omega
    · omega

theorem bestScan_foldl_fst {n : Nat} {edges : List (Nat × Nat)} :
    ∀ (l : List (List Char × Nat)) (acc : Option (List Char) × ℤ)
      (c : List Char),
      (l.foldl (fun acc p =>
          let c := pyClean p.1 n
          let cut := computeMaxcutValue c edges
          if (cut : ℤ) > acc.2 then (some c, (cut : ℤ)) else acc) acc).1 = some c →
      acc.1 = some c ∨ ∃ p ∈ l, c = pyClean p.1 n := by
  intro l
  induction l with
  | nil => intro acc c h; exact Or.inl h
  | cons p ps ih =>
    intro acc c h
    simp only [List.foldl_cons] at h
    rcases ih _ c h with h1 | h1
    · split_ifs at h1 with hc
      · rcases h1 with h1
        refine Or.inr ⟨p, by simp, ?_⟩
        simpa using h1.symm
      · exact Or.inl h1
    · rcases h1 with ⟨q, hq, hq2⟩
      exact Or.inr ⟨q, List.mem_cons_of_mem p hq, hq2⟩

theorem bestScan_foldl_isSome {n : Nat} {edges : List (Nat × Nat)} :
    ∀ (l : List (List Char × Nat)) (acc : Option (List Char) × ℤ),
      acc.1.isSome = true →
      (l.foldl (fun acc p =>
          let c := pyClean p.1 n
          let cut := computeMaxcutValue c edges
          if (cut : ℤ) > acc.2 then (some c, (cut : ℤ)) else acc) acc).1.isSome = true := by
  intro l
  induction l with
  | nil => intro acc h; exact h
  | cons p ps ih =>
    intro acc h
    simp only [List.foldl_cons]
    refine ih _ ?_
    dsimp only
    split_ifs
    · rfl
    · exact h

theorem bestScan_isSome (n : Nat) (edges : List (Nat × Nat))
    {l : List (List Char × Nat)} (h : l ≠ []) :
    (bestScan n edges l).1.isSome = true := by
  match l, h with
  | p :: ps, _ =>
    unfold bestScan
    simp only [List.foldl_cons]
    refine bestScan_foldl_isSome ps _ ?_
    dsimp only
    have hge : (0 : ℤ) ≤ (computeMaxcutValue (pyClean p.1 n) edges : ℤ) := by
      exact_mod_cast Nat.zero_le _
    rw [if_pos (by omega)]
    rfl

theorem bestScan_fst_mem {n : Nat} {edges : List (Nat × Nat)}
    {l : List (List Char × Nat)} {c : List Char}
    (h : (bestScan n edges l).1 = some c) :
    ∃ p ∈ l, c = pyClean p.1 n := by
  unfold bestScan at h
  rcases bestScan_foldl_fst l _ c h with h1 | h1
  · simp at h1
  · exact h1

theorem foldl_max_natCast (n : Nat) (edges : List (Nat × Nat)) :
    ∀ (ps : List (List Char × Nat)) (a : Nat),
      ps.foldl
        (fun x p => max x ((computeMaxcutValue (pyClean p.1 n) edges : ℕ) : ℤ))
        ((a : ℕ) : ℤ) =
      ((ps.foldl
          (fun x p => Nat.max x (computeMaxcutValue (pyClean p.1 n) edges)) a : ℕ) : ℤ) := by
  intro ps
  induction ps with
  | nil => intro a; rfl
  | cons p ps ih =>
    intro a
    simp only [List.foldl_cons]
    rw [← ih]
    congr 1
    rw [Nat.cast_max]

theorem bestScan_snd_of_ne_nil (n : Nat) (edges : List (Nat × Nat))
    {l : List (List Char × Nat)} (h : l ≠ []) :
    (bestScan n edges l).2 =
      (((l.map (fun p => computeMaxcutValue (pyClean p.1 n) edges)).foldl
          Nat.max 0 : ℕ) : ℤ) := by
  match l, h with
  | p :: ps, _ =>
    unfold bestScan
    rw [bestScan_foldl_snd]
    simp only [List.foldl_cons, List.map_cons]
    have h0 : max (-1 : ℤ) ((computeMaxcutValue (pyClean p.1 n) edges : ℕ) : ℤ) =
        ((computeMaxcutValue (pyClean p.1 n) edges : ℕ) : ℤ) := by
      have : (0 : ℤ) ≤ (computeMaxcutValue (pyClean p.1 n) edges : ℤ) := by
        exact_mod_cast Nat.zero_le _
      omega
    rw [h0]
    have h1 : Nat.max 0 (computeMaxcutValue (pyClean p.1 n) edges) =
        computeMaxcutValue (pyClean p.1 n) edges := Nat.zero_max _
    rw [h1, foldl_max_natCast n edges ps, List.foldl_map]

/-! ## Bitstring cleanup -/

theorem length_pyZfillPad (s : List Char) (k : Nat) :
    (pyZfillPad s k).length = s.length + k := by
  cases s with
  | nil => simp [pyZfillPad]
  | cons c rest =>
    rw [pyZfillPad]
    split_ifs with h
    · simp only [List.length_cons, List.length_append, List.length_replicate]
      omega
    · simp only [List.length_cons, List.length_append, List.length_replicate]
      omega

theorem length_pyZfill (s : List Char) (n : Nat) :
    (pyZfill s n).length = max s.length n := by
  unfold pyZfill
  split_ifs with h
  · omega
  · rw [length_pyZfillPad]
    omega

theorem length_pyLastN (s : List Char) (n : Nat) (h1 : 1 ≤ n)
    (h2 : n ≤ s.length) : (pyLastN s n).length = n := by
  unfold pyLastN
  rw [if_neg (by omega)]
  rw [List.length_drop]
  omega

theorem length_pyClean (s : List Char) (n : Nat) (h : 1 ≤ n) :
    (pyClean s n).length = n := by
  unfold pyClean
  refine length_pyLastN _ _ h ?_
  rw [length_pyZfill]
  omega

theorem mem_pyZfillPad {s : List Char} {k : Nat}
    (hs : ∀ c ∈ s, c = '0' ∨ c = '1') :
    ∀ c ∈ pyZfillPad s k, c = '0' ∨ c = '1' := by
  cases s with
  | nil =>
    intro c hc
    rw [pyZfillPad] at hc
    left
    exact List.eq_of_mem_replicate hc
  | cons a rest =>
    intro c hc
    rw [pyZfillPad] at hc
    split_ifs at hc with h
    · rcases List.mem_cons.mp hc with h3 | h3
      · exact h3 ▸ hs a (by simp)
      · rcases List.mem_append.mp h3 with h4 | h4
        · left; exact List.eq_of_mem_replicate h4
        · exact hs c (List.mem_cons_of_mem a h4)
    · rcases List.mem_append.mp hc with h3 | h3
      · left; exact List.eq_of_mem_replicate h3
      · exact hs c h3

theorem mem_pyZfill {s : List Char} {n : Nat}
    (hs : ∀ c ∈ s, c = '0' ∨ c = '1') :
    ∀ c ∈ pyZfill s n, c = '0' ∨ c = '1' := by
  unfold pyZfill
  split_ifs with h
  · exact hs
  · exact mem_pyZfillPad hs

theorem mem_pyLastN {s : List Char} {n : Nat} {c : Char}
    (h : c ∈ pyLastN s n) : c ∈ s := by
  unfold pyLastN at h
  split_ifs at h
  · exact h
  · exact List.drop_subset _ s h

theorem mem_pyClean {s : List Char} {n : Nat}
    (hs : ∀ c ∈ s, c = '0' ∨ c = '1' ∨ c = ' ') :
    ∀ c ∈ pyClean s n, c = '0' ∨ c = '1' := by
  intro c hc
  unfold pyClean at hc
  refine mem_pyZfill ?_ c (mem_pyLastN hc)
  intro d hd
  have hd2 := List.mem_filter.mp hd
  rcases hs d hd2.1 with h | h | h
  · left; exact h
  · right; exact h
  · exfalso
    rw [h] at hd2
    simp at hd2

theorem getD_mem_of_lt {bs : List Char} {i : Nat} (h : i < bs.length) :
    bs.getD i 'X' ∈ bs := by
  have h2 : bs[i]? = some bs[i] := List.getElem?_eq_getElem h
  rw [List.getD_eq_getElem?_getD, h2]
  exact List.getElem_mem h

/-! ## Group extraction -/

theorem filterMap_get?_range :
    ∀ {α : Type} (l : List α), (List.range l.length).filterMap l.get? = l := by
  intro α l
  induction l with
  | nil => rfl
  | cons a t ih =>
    rw [List.length_cons, List.range_succ_eq_map, List.filterMap_cons,
        List.filterMap_map]
    have hc : (a :: t).get? ∘ Nat.succ = t.get? := rfl
    rw [List.get?_cons_zero, hc, ih]

theorem pickGroup_append_perm (members : List String) (bs : List Char)
    (h : ∀ i < members.length, bs.getD i 'X' = '0' ∨ bs.getD i 'X' = '1') :
    (pickGroup members bs '0' ++ pickGroup members bs '1').Perm members := by
  unfold pickGroup
  rw [← List.filterMap_append]
  have hfil : (List.range members.length).filter (fun i => bs.getD i 'X' == '1') =
      (List.range members.length).filter (fun i => !(bs.getD i 'X' == '0')) := by
    refine List.filter_congr ?_
    intro i hi
    rcases h i (List.mem_range.mp hi) with h0 | h0 <;> rw [h0] <;> rfl
  rw [hfil]
  have hperm :=
    List.filter_append_perm (fun i => bs.getD i 'X' == '0')
      (List.range members.length)
  have h2 := List.Perm.filterMap members.get? hperm
  rwa [filterMap_get?_range] at h2

/-! ## Unfolding `processCounts` on a successful best-partition scan -/

theorem processCounts_eq_some {counts : List (List Char × Nat)}
    {members : List String} {riskScore : ℚ} {edges : List (Nat × Nat)}
    {bs : List Char} {cut : ℤ}
    (h : bestScan members.length edges ((sortDescByCount counts).take 20) =
      (some bs, cut)) :
    processCounts counts members riskScore edges = some
      { best_bitstring := bs
        cut_value := cut
        max_possible_cut := edges.length
        group_0 := pickGroup members bs '0'
        group_1 := pickGroup members bs '1'
        classical_bitstring := (classicalGreedyMaxcut members.length edges).1
        classical_cut := (classicalGreedyMaxcut members.length edges).2
        quantum_advantage_pct :=
          pyRound2 (((cut : ℚ) -
              ((classicalGreedyMaxcut members.length edges).2 : ℚ)) /
            (max edges.length 1 : ℚ) * 100)
        dominant_group :=
          if (pickGroup members bs '1').length ≥ (pickGroup members bs '0').length
          then pickGroup members bs '1' else pickGroup members bs '0'
        minority_group :=
          if (pickGroup members bs '1').length ≥ (pickGroup members bs '0').length
          then pickGroup members bs '0' else pickGroup members bs '1'
        dominant_prob :=
          ((((sortDescByCount counts).take 10).filter
              (fun p => pyClean p.1 members.length == bs)).map
            (fun p => (p.2 : ℚ) / (((counts.map (fun p => p.2)).sum : ℕ) : ℚ))).sum
        quantum_scores :=
          (if (pickGroup members bs '1').length ≥ (pickGroup members bs '0').length
           then pickGroup members bs '1' else pickGroup members bs '0').map
            (fun a => (a, dominantScore riskScore
              ((((sortDescByCount counts).take 10).filter
                  (fun p => pyClean p.1 members.length == bs)).map
                (fun p => (p.2 : ℚ) / (((counts.map (fun p => p.2)).sum : ℕ) : ℚ))).sum)) ++
          (if (pickGroup members bs '1').length ≥ (pickGroup members bs '0').length
           then pickGroup members bs '0' else pickGroup members bs '1').map
            (fun a => (a, minorityScore riskScore))
        suspicious_set :=
          if (pickGroup members bs '1').length ≥ (pickGroup members bs '0').length
          then pickGroup members bs '1' else pickGroup members bs '0' } := by
  simp only [processCounts, h]

/-! ## Dedup invariant of `_get_graph_edges` -/

theorem dedup_foldl_pairwise :
    ∀ (l : List (Nat × Nat)) (seen acc : List (Nat × Nat)),
      (∀ e ∈ acc, edgeKey e ∈ seen) →
      acc.Pairwise (fun e f => edgeKey e ≠ edgeKey f) →
      ((l.foldl
          (fun st e =>
            if edgeKey e ∈ st.1 then st else (edgeKey e :: st.1, st.2 ++ [e]))
          (seen, acc)).2).Pairwise (fun e f => edgeKey e ≠ edgeKey f) := by
  intro l
  induction l with
  | nil => intro seen acc h1 h2; exact h2
  | cons e es ih =>
    intro seen acc h1 h2
    simp only [List.foldl_cons]
    by_cases hk : edgeKey e ∈ seen
    · rw [if_pos hk]
      exact ih seen acc h1 h2
    · rw [if_neg hk]
      refine ih _ _ ?_ ?_
      · intro f hf
        rcases List.mem_append.mp hf with h3 | h3
        · exact List.mem_cons_of_mem _ (h1 f h3)
        · simp only [List.mem_singleton] at h3
          subst h3
          exact List.mem_cons_self _ _
      · refine List.pairwise_append.mpr ⟨h2, List.pairwise_singleton _ _, ?_⟩
        intro a ha b hb
        simp only [List.mem_singleton] at hb
        subst hb
        intro hEq
        exact hk (hEq ▸ h1 a ha)

theorem getGraphEdges_pairwise_keys (members : List String)
    (g : List (String × String)) :
    (getGraphEdges members g).Pairwise (fun e f => edgeKey e ≠ edgeKey f) := by
  unfold getGraphEdges dedupByKey
  exact dedup_foldl_pairwise _ [] [] (by simp) List.Pairwise.nil

/-! ## Shape of the backend results -/

theorem runOnIbm_some {g : List (String × String)} {ms : List String}
    {risk : ℚ} {env : QuantumEnv} {r : AgentResult}
    (h : runOnIbm g ms risk env = some r) : ∃ pr, r = .processed pr := by
  unfold runOnIbm at h
  dsimp only at h
  split_ifs at h with he
  cases hc : env.ibmCounts with
  | none =>
    rw [hc] at h
    exact Option.noConfusion h
  | some counts =>
    rw [hc] at h
    dsimp only at h
    rcases Option.map_eq_some'.mp h with ⟨pr, _, hpr⟩
    exact ⟨pr, hpr.symm⟩

theorem runOnAer_fallback {g : List (String × String)} {ms : List String}
    {rid : String} {risk : ℚ} {env : QuantumEnv} {f : FallbackResult}
    (h : runOnAer g ms rid risk env = .fallback f) :
    f = fallbackResult rid ms "no_edges" ∨ f = fallbackResult rid ms "aer_error" := by
  unfold runOnAer at h
  dsimp only at h
  split_ifs at h with he
  · left
    injection h with h2
    exact h2.symm
  · cases hc : env.aerCounts with
    | none =>
      rw [hc] at h
      dsimp only at h
      right
      injection h with h2
      exact h2.symm
    | some counts =>
      rw [hc] at h
      dsimp only at h
      cases hp : processCounts counts ms risk (getGraphEdges ms g) with
      | none =>
        rw [hp] at h
        dsimp only at h
        right
        injection h with h2
        exact h2.symm
      | some pr =>
        rw [hp] at h
        dsimp only at h
        exact AgentResult.noConfusion h


/-! ## A fully evaluated `_process_counts` run (the §8 4-cycle example)

The 4-cycle ring A→B→C→D→A with `risk_score = 80`, a single sampled
coloring `0101` (cut 4, the maximum), and its cost graph. -/

theorem bestScan_ring4 :
    bestScan (["A", "B", "C", "D"] : List String).length
        [(0, 1), (1, 2), (2, 3), (3, 0)]
        ((sortDescByCount [(['0', '1', '0', '1'], 100)]).take 20) =
      (some ['0', '1', '0', '1'], 4) := by decide

theorem processCounts_ring4 :
    processCounts [(['0', '1', '0', '1'], 100)] ["A", "B", "C", "D"] 80
        [(0, 1), (1, 2), (2, 3), (3, 0)] = some
      { best_bitstring := ['0', '1', '0', '1']
        cut_value := 4
        max_possible_cut := 4
        group_0 := ["A", "C"]
        group_1 := ["B", "D"]
        classical_bitstring := ['0', '0', '0', '0']
        classical_cut := 0
        quantum_advantage_pct := 100
        dominant_group := ["B", "D"]
        minority_group := ["A", "C"]
        dominant_prob := 1
        quantum_scores := [("B", 82), ("D", 82), ("A", 48), ("C", 48)]
        suspicious_set := ["B", "D"] } := by
  rw [processCounts_eq_some bestScan_ring4]
  have hcl : (classicalGreedyMaxcut (["A", "B", "C", "D"] : List String).length
      [(0, 1), (1, 2), (2, 3), (3, 0)]).2 = 0 := by decide
  have hfil : ((sortDescByCount [(['0', '1', '0', '1'], 100)]).take 10).filter
      (fun p => pyClean p.1 (["A", "B", "C", "D"] : List String).length ==
        ['0', '1', '0', '1']) = [(['0', '1', '0', '1'], 100)] := by decide
  rw [hcl, hfil]
  simp only [Option.some.injEq, ProcessedResult.mk.injEq]
  norm_num [pyRound2, roundHalfEven, Int.floor_ofNat, max_def, min_def,
    dominantScore, minorityScore]
  decide

/-! # Claim theorems -/

/-- C1: the spec claims that on the 4-cycle ring A→B→C→D→A (cost graph =
4 undirected edges) the classical greedy baseline `_classical_greedy_maxcut`
cuts 4 edges, so that a best sampled cut of 4 gives `advantage_pct = 0`.
The code contradicts the spec and its own comment "Assign to partition
that maximises cuts": the comparison `1 if cuts_1 > cuts_0 else 0` puts
every node on the side where most of its neighbours already sit, so the
partition stays `0000`, the baseline cut is 0, and a best sampled cut of 4
yields `quantum_advantage_pct = 100`, not 0. -/
theorem C1_greedy_baseline_cuts_zero_on_four_cycle :
    getGraphEdges ["A", "B", "C", "D"]
        [("A", "B"), ("B", "C"), ("C", "D"), ("D", "A")] =
      [(0, 1), (1, 2), (2, 3), (3, 0)] ∧
    classicalGreedyMaxcut 4 [(0, 1), (1, 2), (2, 3), (3, 0)] =
      (['0', '0', '0', '0'], 0) ∧
    (processCounts [(['0', '1', '0', '1'], 100)] ["A", "B", "C", "D"] 80
        [(0, 1), (1, 2), (2, 3), (3, 0)]).map
      (fun r => r.quantum_advantage_pct) = some 100 := by
  refine ⟨by decide, by decide, ?_⟩
  rw [processCounts_ring4]
  rfl

/-- C7 (counterexample): `_get_graph_edges` keeps self-loops.  With ring
members A, B and a transaction graph holding the single self-transfer
A→A, the returned cost-graph edge list contains the self-loop `(0, 0)`,
contradicting "no edge of the form (i, i) appears". -/
theorem C7_counterexample_self_loop_kept :
    (0, 0) ∈ getGraphEdges ["A", "B"] [("A", "A")] := by decide

/-- C7 (amended): the edge list returned by `_get_graph_edges` is
deduplicated by unordered pair — no two entries share the same unordered
key `(min, max)`, so every undirected edge (self-loops included) has
exactly one representative — but self-loops between ring members are
retained, not removed. -/
theorem C7_amended_no_duplicate_unordered_pair (members : List String)
    (g : List (String × String)) :
    (getGraphEdges members g).Pairwise (fun e f => edgeKey e ≠ edgeKey f) :=
  getGraphEdges_pairwise_keys members g

/-- C2 (counterexample): `parse_csv` performs no emptiness check.  On a
CSV whose only row has a non-numeric amount (coerced to NaN and dropped),
it silently returns an empty DataFrame, an empty graph and a metadata
record with zero accounts and transfers — it does not fail with an
`EmptyGraphError`-style error. -/
theorem C2_counterexample_empty_graph_returned :
    parseCsv
      { columns := ["transaction_id", "sender_id", "receiver_id", "amount",
          "timestamp"]
        rows := [⟨"T1", some "A", some "B", none, some 0⟩] } =
    .ok
      { df := []
        nodes := []
        edges := []
        nodeStats := []
        metadata := ⟨0, 0, 0, none, none⟩ } := by
  rfl

/-- C2 (amended): `parse_csv` surfaces only the missing-required-columns
`ValueError`; whenever every required column is present it returns a
parse result to the caller — even when zero accounts or zero valid
transfers remain after dropping invalid rows. -/
theorem C2_amended_no_error_when_columns_present (t : CsvTable)
    (h : REQUIRED_COLUMNS.filter
      (fun c => !((t.columns.map normalizeColumn).contains c)) = []) :
    (parseCsv t).isOk = true := by
  simp only [parseCsv, h]
  rfl

/-- C2 witness: an input with the required columns and no rows at all
parses successfully (to the empty graph). -/
theorem C2_witness_empty_input_parses :
    (parseCsv { columns := REQUIRED_COLUMNS, rows := [] }).isOk = true :=
  C2_amended_no_error_when_columns_present
    { columns := REQUIRED_COLUMNS, rows := [] } (by rfl)

/-- C8 (counterexample): a run that fails after CSV parsing does NOT
leave the process-wide state unchanged.  Starting from the complete
state of run 1, a request whose parse succeeds (graph/df tags 2) and
whose pipeline then raises leaves `latest_graph`/`latest_df` at the new
run 2 while `latest_results` still holds run 1 — a partial mix of old
results with a new graph, contradicting the claim. -/
theorem C8_counterexample_failed_run_mixes_state :
    analyzeStep ⟨some 1, some 1, some 1⟩ (some (2, 2)) none =
      (⟨some 1, some 2, some 2⟩, false) ∧
    (⟨some 1, some 2, some 2⟩ : ServerState) ≠ ⟨some 1, some 1, some 1⟩ := by
  decide

/-- C8 (amended): a request failing during parse leaves the state
unchanged, but a request failing after parse stores the new graph and
DataFrame while keeping the previous run's `latest_results`; only full
success replaces all three. -/
theorem C8_amended_failure_after_parse_updates_graph_only
    (s : ServerState) (gd : Nat × Nat) (pr : Option Nat) :
    analyzeStep s none pr = (s, false) ∧
    analyzeStep s (some gd) none =
      (⟨s.latest_results, some gd.1, some gd.2⟩, false) :=
  ⟨rfl, rfl⟩

/-- C9: with a (truthy) stored analysis in place, a What-If request whose
node list is empty or absent is rejected with HTTP 400 before the
simulator is constructed, and the stored state is returned unchanged; a
non-empty node list reaches `WhatIfSimulator.simulate`. -/
theorem C9_whatif_empty_rejected_nonempty_simulated
    (s : ServerState) (bodyNodes : Option (List String))
    (hG : pyFalsy s.latest_graph = false)
    (hR : pyFalsy s.latest_results = false) :
    whatifStep s bodyNodes =
      (if (bodyNodes.getD []).isEmpty
        then .httpError 400 "No nodes specified. Provide nodes array."
        else .simulate (bodyNodes.getD []), s) := by
  unfold whatifStep
  rw [hG, hR]
  simp only [Bool.or_self]
  rw [if_neg (by simp)]
  split_ifs <;> rfl

/-- C9 witness: a request with no node list against a stored analysis is
rejected with HTTP 400 and the state is unchanged. -/
theorem C9_witness_absent_list_rejected :
    whatifStep ⟨some 1, some 1, some 1⟩ none =
      (.httpError 400 "No nodes specified. Provide nodes array.",
        (⟨some 1, some 1, some 1⟩ : ServerState)) :=
  C9_whatif_empty_rejected_nonempty_simulated
    ⟨some 1, some 1, some 1⟩ none (by rfl) (by rfl)

/-- C10: rows dropped by the NaN/NaT coercion contribute to nothing:
parsing a table is identical to parsing its valid rows only, and the
metadata counts and date range are computed over the retained rows. -/
theorem C10_dropped_rows_contribute_nothing (t : CsvTable)
    (out : ParseOutput) (hout : parseCsv t = .ok out) :
    parseCsv { columns := t.columns, rows := t.rows.filter validRow } =
      parseCsv t ∧
    out.metadata.total_transactions = (t.rows.filter validRow).length ∧
    out.metadata.date_start =
      ((t.rows.filter validRow).map (fun r => r.timestamp.getD 0)).min? ∧
    out.metadata.date_end =
      ((t.rows.filter validRow).map (fun r => r.timestamp.getD 0)).max? := by
  constructor
  · unfold parseCsv
    rw [List.filter_filter]
    simp only [Bool.and_self]
  · unfold parseCsv at hout
    dsimp only at hout
    split_ifs at hout with hmiss
    injection hout with h2
    subst h2
    exact ⟨rfl, rfl, rfl⟩

/-- C10 witness: a table holding one invalid row (NaN amount) parses
exactly like the empty table, with zero counted transactions and an
empty date range. -/
theorem C10_witness_one_invalid_row :
    parseCsv ⟨REQUIRED_COLUMNS, []⟩ =
      parseCsv ⟨REQUIRED_COLUMNS, [⟨"T1", some "A", some "B", none, some 0⟩]⟩ ∧
    (0 : Nat) = 0 ∧
    (none : Option ℤ) = none ∧
    (none : Option ℤ) = none :=
  C10_dropped_rows_contribute_nothing
    ⟨REQUIRED_COLUMNS, [⟨"T1", some "A", some "B", none, some 0⟩]⟩
    ⟨[], [], [], [], ⟨0, 0, 0, none, none⟩⟩ (by rfl)

/-- C3: for every measurement distribution over binary (possibly
space-separated) bitstring keys and every duplicate-free capped member
list, the two groups `group_0`/`group_1` returned by `_process_counts`
are disjoint and together are exactly the capped member subset the
coloring was computed over. -/
theorem C3_partition_groups_disjoint_and_exhaustive
    (counts : List (List Char × Nat)) (members : List String)
    (riskScore : ℚ) (edges : List (Nat × Nat)) (r : ProcessedResult)
    (hnd : members.Nodup)
    (hchars : ∀ p ∈ counts, ∀ c ∈ p.1, c = '0' ∨ c = '1' ∨ c = ' ')
    (hr : processCounts counts members riskScore edges = some r) :
    List.Disjoint r.group_0 r.group_1 ∧
    (r.group_0 ++ r.group_1).Perm members := by
  rcases hbs : bestScan members.length edges
      ((sortDescByCount counts).take 20) with ⟨ofst, cut⟩
  cases ofst with
  | none =>
    have hnone : processCounts counts members riskScore edges = none := by
      simp only [processCounts, hbs]
    rw [hnone] at hr
    exact Option.noConfusion hr
  | some bs =>
    rw [processCounts_eq_some hbs] at hr
    injection hr with h2
    subst h2
    have hbs1 : (bestScan members.length edges
        ((sortDescByCount counts).take 20)).1 = some bs := by rw [hbs]
    obtain ⟨p, hp, hbsc⟩ := bestScan_fst_mem hbs1
    subst hbsc
    have hpin : p ∈ counts :=
      mem_of_mem_sortDescByCount (List.take_subset _ _ hp)
    have hch : ∀ i < members.length,
        (pyClean p.1 members.length).getD i 'X' = '0' ∨
        (pyClean p.1 members.length).getD i 'X' = '1' := by
      intro i hi
      have hn1 : (1 : Nat) ≤ members.length := by omega
      have hlen : (pyClean p.1 members.length).length = members.length :=
        length_pyClean _ _ hn1
      have hmem : (pyClean p.1 members.length).getD i 'X' ∈
          pyClean p.1 members.length := getD_mem_of_lt (by omega)
      exact mem_pyClean (hchars p hpin) _ hmem
    have hperm := pickGroup_append_perm members (pyClean p.1 members.length) hch
    refine ⟨?_, hperm⟩
    have hnodup2 : (pickGroup members (pyClean p.1 members.length) '0' ++
        pickGroup members (pyClean p.1 members.length) '1').Nodup :=
      (hperm.nodup_iff).mpr hnd
    exact (List.nodup_append.mp hnodup2).2.2

/-- C3 witness: the §8 4-cycle example — groups {A, C} and {B, D} are
disjoint and together are the four capped members. -/
theorem C3_witness_ring4 :
    List.Disjoint (["A", "C"] : List String) ["B", "D"] ∧
    (((["A", "C"] : List String) ++ ["B", "D"]).Perm ["A", "B", "C", "D"]) :=
  C3_partition_groups_disjoint_and_exhaustive
    [(['0', '1', '0', '1'], 100)] ["A", "B", "C", "D"] 80
    [(0, 1), (1, 2), (2, 3), (3, 0)]
    ⟨['0', '1', '0', '1'], 4, 4, ["A", "C"], ["B", "D"], ['0', '0', '0', '0'],
      0, 100, ["B", "D"], ["A", "C"], 1,
      [("B", 82), ("D", 82), ("A", 48), ("C", 48)], ["B", "D"]⟩
    (by decide) (by decide) processCounts_ring4

/-- C4: whenever `_process_counts` succeeds on a ring with non-negative
risk score, the per-account score dict assigns every dominant-group
account `round(min(risk*0.9 + mass*10, 100), 2)` and every minority-group
account `round(min(risk*0.6, 100), 2)`, and the former is ≥ the latter:
the probability mass is non-negative, `min(·,100)` is monotone, and
banker's rounding to 2 decimals is monotone. -/
theorem C4_dominant_score_ge_minority_score
    (counts : List (List Char × Nat)) (members : List String)
    (riskScore : ℚ) (edges : List (Nat × Nat)) (r : ProcessedResult)
    (hrisk : 0 ≤ riskScore)
    (hr : processCounts counts members riskScore edges = some r) :
    r.quantum_scores =
      r.dominant_group.map
        (fun a => (a, dominantScore riskScore r.dominant_prob)) ++
      r.minority_group.map (fun a => (a, minorityScore riskScore)) ∧
    minorityScore riskScore ≤ dominantScore riskScore r.dominant_prob := by
  rcases hbs : bestScan members.length edges
      ((sortDescByCount counts).take 20) with ⟨ofst, cut⟩
  cases ofst with
  | none =>
    have hnone : processCounts counts members riskScore edges = none := by
      simp only [processCounts, hbs]
    rw [hnone] at hr
    exact Option.noConfusion hr
  | some bs =>
    rw [processCounts_eq_some hbs] at hr
    injection hr with h2
    subst h2
    refine ⟨rfl, ?_⟩
    have hdp : (0 : ℚ) ≤
        ((((sortDescByCount counts).take 10).filter
            (fun p => pyClean p.1 members.length == bs)).map
          (fun p => (p.2 : ℚ) / (((counts.map (fun p => p.2)).sum : ℕ) : ℚ))).sum := by
      refine List.sum_nonneg ?_
      intro x hx
      obtain ⟨p, hp, rfl⟩ := List.mem_map.mp hx
      positivity
    unfold dominantScore minorityScore
    refine pyRound2_mono ?_
    refine min_le_min ?_ le_rfl
    nlinarith

/-- C4 witness: the §8 4-cycle example with risk 80 — dominant accounts
score 82, minority accounts 48, and 48 ≤ 82. -/
theorem C4_witness_ring4 :
    ([("B", 82), ("D", 82), ("A", 48), ("C", 48)] : List (String × ℚ)) =
      (["B", "D"] : List String).map (fun a => (a, dominantScore 80 1)) ++
      (["A", "C"] : List String).map (fun a => (a, minorityScore 80)) ∧
    minorityScore 80 ≤ dominantScore 80 1 :=
  C4_dominant_score_ge_minority_score
    [(['0', '1', '0', '1'], 100)] ["A", "B", "C", "D"] 80
    [(0, 1), (1, 2), (2, 3), (3, 0)]
    ⟨['0', '1', '0', '1'], 4, 4, ["A", "C"], ["B", "D"], ['0', '0', '0', '0'],
      0, 100, ["B", "D"], ["A", "C"], 1,
      [("B", 82), ("D", 82), ("A", 48), ("C", 48)], ["B", "D"]⟩
    (by norm_num) processCounts_ring4

/-- C5: the advantage percentage computed by `_process_counts` is exactly
`round((best_cut − classical_cut) / max(total_edges, 1) × 100, 2)`, where
`best_cut` is the highest cut value among the cleaned top-20 most
frequent samples, `classical_cut` the greedy baseline's cut value, and
`total_edges` the number of cost-graph edges. -/
theorem C5_advantage_is_spec_formula
    (counts : List (List Char × Nat)) (members : List String)
    (riskScore : ℚ) (edges : List (Nat × Nat)) (r : ProcessedResult)
    (hr : processCounts counts members riskScore edges = some r) :
    r.quantum_advantage_pct =
      pyRound2 (((specBestCut20 counts members.length edges : ℚ) -
          ((classicalGreedyMaxcut members.length edges).2 : ℚ)) /
        (max edges.length 1 : ℚ) * 100) := by
  rcases hbs : bestScan members.length edges
      ((sortDescByCount counts).take 20) with ⟨ofst, cut⟩
  cases ofst with
  | none =>
    have hnone : processCounts counts members riskScore edges = none := by
      simp only [processCounts, hbs]
    rw [hnone] at hr
    exact Option.noConfusion hr
  | some bs =>
    rw [processCounts_eq_some hbs] at hr
    injection hr with h2
    subst h2
    have hne : ((sortDescByCount counts).take 20) ≠ [] := by
      intro h0
      rw [h0] at hbs
      exact Option.noConfusion (congrArg Prod.fst hbs)
    have hsnd := bestScan_snd_of_ne_nil members.length edges hne
    rw [hbs] at hsnd
    dsimp only at hsnd
    have hcast : ((cut : ℤ) : ℚ) =
        ((specBestCut20 counts members.length edges : ℕ) : ℚ) := by
      rw [hsnd]
      push_cast
      rfl
    dsimp only
    rw [hcast]

/-- C5 witness: the §8 4-cycle example — best sampled cut 4, greedy
baseline cut 0, four edges, advantage `round((4−0)/4×100, 2) = 100`. -/
theorem C5_witness_ring4 :
    (100 : ℚ) =
      pyRound2 (((specBestCut20 [(['0', '1', '0', '1'], 100)]
            (["A", "B", "C", "D"] : List String).length
            [(0, 1), (1, 2), (2, 3), (3, 0)] : ℚ) -
          ((classicalGreedyMaxcut (["A", "B", "C", "D"] : List String).length
            [(0, 1), (1, 2), (2, 3), (3, 0)]).2 : ℚ)) /
        (max ([(0, 1), (1, 2), (2, 3), (3, 0)] : List (Nat × Nat)).length 1 : ℚ) *
        100) :=
  C5_advantage_is_spec_formula
    [(['0', '1', '0', '1'], 100)] ["A", "B", "C", "D"] 80
    [(0, 1), (1, 2), (2, 3), (3, 0)]
    ⟨['0', '1', '0', '1'], 4, 4, ["A", "C"], ["B", "D"], ['0', '0', '0', '0'],
      0, 100, ["B", "D"], ["A", "C"], 1,
      [("B", 82), ("D", 82), ("A", 48), ("C", 48)], ["B", "D"]⟩
    processCounts_ring4

/-- C6 (counterexample): in the zero-edge simulator path the fallback
scores only the capped first `MAX_QUBITS_SIM = 8` members, not every ring
member.  With a 9-member ring, an edgeless graph, no IBM connection and
qiskit available, `run` returns the fallback over `members[:8]` and the
ninth member receives no score at all, contradicting "every ring member
receives score 50.0". -/
theorem C6_counterexample_ninth_member_unscored :
    agentRun []
      ⟨["M1", "M2", "M3", "M4", "M5", "M6", "M7", "M8", "M9"], "RING_001", 80⟩
      ⟨false, none, true, none⟩ =
      .fallback (fallbackResult "RING_001"
        ["M1", "M2", "M3", "M4", "M5", "M6", "M7", "M8"] "no_edges") ∧
    "M9" ∉ ((fallbackResult "RING_001"
        ["M1", "M2", "M3", "M4", "M5", "M6", "M7", "M8"]
        "no_edges").quantum_scores.map Prod.fst) := by
  refine ⟨rfl, by decide⟩

/-- C6 (amended): `run` is total over the modelled environment (every
exception of the backends is caught), and whenever it returns the
fallback dict — ring < 2 members, qiskit unavailable, no induced
cost-graph edges, or both backends failing — that dict scores each listed
member 50.0 with advantage 0 and carries the ring id; the listed members
are the full ring in the <2-members and qiskit-unavailable paths but only
the capped first `MAX_QUBITS_SIM` members in the simulator paths. -/
theorem C6_amended_fallback_is_fifty_over_listed_members
    (g : List (String × String)) (ring : RingInfo) (env : QuantumEnv)
    (f : FallbackResult)
    (h : agentRun g ring env = .fallback f) :
    f = fallbackResult f.ring_id f.suspicious_set f.reason ∧
    f.quantum_advantage_pct = 0 ∧
    f.ring_id = ring.ring_id ∧
    (f.suspicious_set = ring.member_accounts ∨
      f.suspicious_set = ring.member_accounts.take MAX_QUBITS_SIM) := by
  unfold agentRun at h
  dsimp only at h
  by_cases hlt : ring.member_accounts.length < 2
  · rw [if_pos hlt] at h
    injection h with h2
    subst h2
    exact ⟨rfl, rfl, rfl, Or.inl rfl⟩
  · rw [if_neg hlt] at h
    cases hibm : (if env.ibmConnected = true then
        runOnIbm g (List.take MAX_QUBITS_REAL ring.member_accounts)
          ring.risk_score env
      else none) with
    | some r =>
      rw [hibm] at h
      dsimp only at h
      have hsome : runOnIbm g (List.take MAX_QUBITS_REAL ring.member_accounts)
          ring.risk_score env = some r := by
        by_cases hc : env.ibmConnected = true
        · rwa [if_pos hc] at hibm
        · rw [if_neg hc] at hibm
          exact Option.noConfusion hibm
      obtain ⟨pr, rfl⟩ := runOnIbm_some hsome
      exact AgentResult.noConfusion h
    | none =>
      rw [hibm] at h
      dsimp only at h
      by_cases hq : env.qiskitAvailable = true
      · rw [if_pos hq] at h
        rcases runOnAer_fallback h with h2 | h2 <;> subst h2 <;>
          exact ⟨rfl, rfl, rfl, Or.inr rfl⟩
      · rw [if_neg hq] at h
        injection h with h2
        subst h2
        exact ⟨rfl, rfl, rfl, Or.inl rfl⟩

/-- C6 witness: the 9-member edgeless ring of the counterexample — the
fallback scores its 8 listed members 50.0, advantage 0, and the listed
members are the capped subset. -/
theorem C6_witness_ring9 :
    fallbackResult "RING_001"
        ["M1", "M2", "M3", "M4", "M5", "M6", "M7", "M8"] "no_edges" =
      fallbackResult "RING_001"
        ["M1", "M2", "M3", "M4", "M5", "M6", "M7", "M8"] "no_edges" ∧
    (0 : ℚ) = 0 ∧
    ("RING_001" : String) = "RING_001" ∧
    ((["M1", "M2", "M3", "M4", "M5", "M6", "M7", "M8"] : List String) =
        ["M1", "M2", "M3", "M4", "M5", "M6", "M7", "M8", "M9"] ∨
      (["M1", "M2", "M3", "M4", "M5", "M6", "M7", "M8"] : List String) =
        (["M1", "M2", "M3", "M4", "M5", "M6", "M7", "M8", "M9"] :
          List String).take MAX_QUBITS_SIM) :=
  C6_amended_fallback_is_fifty_over_listed_members []
    ⟨["M1", "M2", "M3", "M4", "M5", "M6", "M7", "M8", "M9"], "RING_001", 80⟩
    ⟨false, none, true, none⟩
    (fallbackResult "RING_001"
      ["M1", "M2", "M3", "M4", "M5", "M6", "M7", "M8"] "no_edges")
    rfl

end Rift
